import Mathlib

/-!
# Asset cache synchronisation (`crates/wasm-server/dist/index.js`)

A shallow embedding of `update_resources_cache` and the functions it calls.

Modelling conventions.

* The two HTTP endpoints are a `Server`: `api/enumerate` either yields the decoded
  `resources` array or fails (network error, malformed JSON, missing or malformed
  `resources` field), and `api/get?name=<name>` either yields the bytes of the body or
  fails (the `fetch` promise rejects).  `download_resource` never looks at the status of
  the response, so a response with an error status is not a failure: its body is the
  bytes.  The server answers the same request in the same way during a pass.
* The IndexedDB object store `assets` (key path `id`, unique index on `name`) is the
  list of its records in `getAll` order, that is, in ascending key order.  A `put`
  whose record would break the unique index fails and leaves the store as it was.
  The `put` requests are not awaited by `update_resources_cache`; each runs in its own
  read-write transaction and IndexedDB runs these in the order of their creation, so
  the store every later transaction observes is the one obtained by applying the puts
  in that order.  This is the store reported in `Pass.store`.
* Reading the store (`getAll`) succeeds, and `console.log` has no effect.
* `new_contents` is an ordinary JavaScript object used as a dictionary.  Its `[[Set]]`
  (line 78) and `[[Get]]` (line 91) follow ECMAScript 2023 with Annex B: the object
  starts with the prototype `%Object.prototype%`; an assignment under the name
  `__proto__` runs the inherited setter and makes the downloaded `Uint8Array` the
  prototype; from then on names are also resolved through that typed array,
  `Uint8Array.prototype` and `%TypedArray%.prototype`.  The file is an ES module, hence
  strict code: an assignment that `[[Set]]` rejects throws a `TypeError`.
* The value stored as `content` is what the structured clone of line 43 makes of
  the value read at line 91: `null`, a byte array, a number (an element of the
  prototype array), or the empty object `{}` (the clone of `%Object.prototype%`); a
  function cannot be cloned and the `put` fails with a `DataCloneError`.  These are the
  only contents the program ever writes.
-/

namespace Dawn

/-- The bytes of a `Uint8Array`. -/
abbrev Bytes := List (Fin 256)

/-- One element of the `resources` array returned by `api/enumerate`. -/
structure ResourceDescriptor where
  name : String
  hash : String
  size : Nat
  deriving DecidableEq, Repr

/-- The value of `content` in a stored record: `null`, a `Uint8Array`, a number, or the
empty object `{}`. -/
inductive Content where
  | null
  | bytes (b : Bytes)
  | number (n : Nat)
  | object
  deriving DecidableEq, Repr

/-- The values other than `undefined` that the expression of line 91 can yield: a value
that can be stored, the object `%Object.prototype%`, or a built-in function. -/
inductive JSValue where
  | stored (c : Content)
  | objectPrototype
  | function
  deriving DecidableEq, Repr

/-- One record of the object store `assets`. -/
structure CacheRecord where
  id : String
  name : String
  hash : String
  size : Nat
  content : Content
  deriving DecidableEq, Repr

/-- The `object` built at lines 86-92 and passed to `put_resource_in_db`. -/
structure ResourceObject where
  id : String
  name : String
  hash : String
  size : Nat
  content : JSValue
  deriving DecidableEq, Repr

/-- The object store `assets`: its records in `getAll` order. -/
abbrev Store := List CacheRecord

/-- The remote collaborator: the answers of `api/enumerate` and of `api/get?name=…`;
`none` is a failed request. -/
structure Server where
  enumerate : Option (List ResourceDescriptor)
  get : String → Option Bytes

/-! ## The object store -/

/-- UTF-16 code units of a character. -/
def utf16 (c : Char) : List Nat :=
  if c.toNat < 0x10000 then [c.toNat]
  else [0xD800 + (c.toNat - 0x10000) / 0x400, 0xDC00 + (c.toNat - 0x10000) % 0x400]

/-- IndexedDB key order on string keys: lexicographic on UTF-16 code units. -/
def keyLt (a b : String) : Bool :=
  decide ((a.toList.map utf16).flatten < (b.toList.map utf16).flatten)

/-- Insertion of a record with a new key at its place in key order. -/
def insertKey (resource : CacheRecord) : Store → Store
  | [] => [resource]
  | r :: rest =>
    if keyLt resource.id r.id then resource :: r :: rest
    else r :: insertKey resource rest

/-- The record stored under a key (`store.get(key)`). -/
def Store.get? (db : Store) (key : String) : Option CacheRecord :=
  db.find? (fun r => r.id == key)

/-- The request `store.put(resource)` on `assets`: rejected when another record (one with a
different key) already has this `name` (unique index); otherwise the record with the
same key is replaced, or the record is added. -/
def Store.put (db : Store) (resource : CacheRecord) : Store :=
  if db.any (fun r => r.id != resource.id && r.name == resource.name) then db
  else if db.any (fun r => r.id == resource.id) then
    db.map (fun r => if r.id == resource.id then resource else r)
  else insertKey resource db

/-- The structured clone that `store.put` makes of its argument: `%Object.prototype%`
has no enumerable own property and is cloned as `{}`; a function cannot be cloned
(`none` is the `DataCloneError`). -/
def structuredClone (resource : ResourceObject) : Option CacheRecord :=
  match resource.content with
  | .function => none
  | .objectPrototype =>
    some { id := resource.id, name := resource.name, hash := resource.hash,
           size := resource.size, content := .object }
  | .stored c =>
    some { id := resource.id, name := resource.name, hash := resource.hash,
           size := resource.size, content := c }

/-! ## Property names that are numbers

`CanonicalNumericIndexString(P)` is a number when `P` is `"-0"` or
`Number::toString(ToNumber(P))` is `P`.  Both conversions are done in exact arithmetic:
`ToNumber` rounds the decimal to the nearest binary64, `Number::toString` prints the
shortest decimal that converts back to the same binary64. -/

/-- The integer part of the binary logarithm of a positive number. -/
def floorLog2 (n : Nat) : Nat :=
  (Nat.toDigits 2 n).length - 1

/-- The fraction `p/q · 2^(-e)`. -/
def scale2 (p q : Nat) (e : Int) : Nat × Nat :=
  if 0 ≤ e then (p, q * 2 ^ e.toNat) else (p * 2 ^ (-e).toNat, q)

/-- The IEEE 754 binary64 value nearest to the positive rational `p/q` (ties to even), as
mantissa `m` and exponent `e` with value `m · 2^e`; `none` is an overflow to infinity. -/
def toDouble (p q : Nat) : Option (Nat × Int) :=
  let e0 : Int := (floorLog2 p : Int) - (floorLog2 q : Int)
  let s0 := scale2 p q e0
  let fl : Int := if s0.2 ≤ s0.1 then e0 else e0 - 1
  let e : Int := max (fl - 52) (-1074)
  let s := scale2 p q e
  let m0 := s.1 / s.2
  let r := s.1 % s.2
  let m := if s.2 < 2 * r ∨ (2 * r = s.2 ∧ m0 % 2 = 1) then m0 + 1 else m0
  let me : Nat × Int := if m = 2 ^ 53 then (2 ^ 52, e + 1) else (m, e)
  if 971 < me.2 then none else some me

/-- The fraction `d · 10^z`. -/
def scale10 (d : Nat) (z : Int) : Nat × Nat :=
  if 0 ≤ z then (d * 10 ^ z.toNat, 1) else (d, 10 ^ (-z).toNat)

/-- The decimal `d · 10^z` is positive and converts to the double `x`. -/
def roundsTo (x : Nat × Int) (d : Nat) (z : Int) : Bool :=
  d != 0 && toDouble (scale10 d z).1 (scale10 d z).2 == some x

/-- Twice the double `x`, in units of `10^z`, as a fraction. -/
def twiceInUnits (x : Nat × Int) (z : Int) : Nat × Nat :=
  let a := scale2 (2 * x.1) 1 (-x.2)
  let b := scale10 1 (-z)
  (a.1 * b.1, a.2 * b.2)

/-- The digits `d` (not divisible by ten) at exponent `z` are those that `Number::toString`
gives for the double `x` to which `d · 10^z` converts: no decimal with fewer digits
converts to `x`, and no neighbour with as many digits that converts to `x` is nearer to
it (of two equally near the even one is taken). -/
def shortestFor (x : Nat × Int) (d : Nat) (z : Int) : Bool :=
  let t := twiceInUnits x z
  (d < 10 || (!roundsTo x (d / 10) (z + 1) && !roundsTo x (d / 10 + 1) (z + 1))) &&
  (!roundsTo x (d + 1) z ||
    decide (t.1 < (2 * d + 1) * t.2) || (t.1 == (2 * d + 1) * t.2 && d % 2 == 0)) &&
  (!roundsTo x (d - 1) z ||
    decide ((2 * d - 1) * t.2 < t.1) || (t.1 == (2 * d - 1) * t.2 && d % 2 == 0))

/-- Number::toString for the positive number with digits `d` (`k` of them) and decimal
exponent `n` (value `0.d · 10^n`). -/
def numberToString (d : Nat) (n : Int) : List Char :=
  let ds := Nat.toDigits 10 d
  let k : Int := ds.length
  if k ≤ n ∧ n ≤ 21 then ds ++ List.replicate (n - k).toNat '0'
  else if 0 < n ∧ n ≤ 21 then ds.take n.toNat ++ '.' :: ds.drop n.toNat
  else if -6 < n ∧ n ≤ 0 then '0' :: '.' :: List.replicate (-n).toNat '0' ++ ds
  else
    let ex := (if 0 ≤ n - 1 then '+' else '-') :: Nat.toDigits 10 (n - 1).natAbs
    if ds.length = 1 then ds ++ 'e' :: ex
    else ds.take 1 ++ '.' :: ds.drop 1 ++ 'e' :: ex

/-- The value of a string of decimal digits. -/
def digitsValue (ds : List Char) : Nat :=
  ds.foldl (fun a c => 10 * a + (c.toNat - 48)) 0

/-- A decimal literal `digits[.digits][e(+|-)digits]` read as digits and exponent:
the value is `r.1 · 10^r.2`. -/
def parseDecimal (cs : List Char) : Option (Nat × Int) :=
  let ip := cs.takeWhile Char.isDigit
  let rest := cs.dropWhile Char.isDigit
  if ip = [] then none else
  let fr : Option (List Char × List Char) :=
    match rest with
    | '.' :: r =>
      if r.takeWhile Char.isDigit = [] then none
      else some (r.takeWhile Char.isDigit, r.dropWhile Char.isDigit)
    | r => some ([], r)
  match fr with
  | none => none
  | some (fp, rest2) =>
    let ex : Option Int :=
      match rest2 with
      | [] => some 0
      | 'e' :: '+' :: r => if r ≠ [] ∧ r.all Char.isDigit then some (digitsValue r) else none
      | 'e' :: '-' :: r => if r ≠ [] ∧ r.all Char.isDigit then some (- (digitsValue r : Int)) else none
      | _ => none
    match ex with
    | none => none
    | some e =>
      let ds := (ip ++ fp).reverse.dropWhile (· == '0')
      let zeros := (ip ++ fp).length - ds.length
      some (digitsValue ds.reverse, e - fp.length + zeros)

/-- The positive finite double `x` with `Number::toString x = cs`, if there is one. -/
def canonicalPositive (cs : List Char) : Option (Nat × Int) :=
  match parseDecimal cs with
  | none => none
  | some (d, z) =>
    let n : Int := (Nat.toDigits 10 d).length + z
    if d = 0 ∨ 17 < (Nat.toDigits 10 d).length ∨ n < -330 ∨ 310 < n then none
    else
      match toDouble (scale10 d z).1 (scale10 d z).2 with
      | none => none
      | some x =>
        if x.1 ≠ 0 ∧ shortestFor x d z ∧ numberToString d n = cs then some x else none

/-- The result of `CanonicalNumericIndexString` when it is a number: a non-negative
integer other than `-0`, or any other number. -/
inductive NumericIndex where
  | integer (i : Nat)
  | other
  deriving DecidableEq, Repr

/-- The double `m · 2^e` as a numeric index. -/
def doubleIndex (x : Nat × Int) : NumericIndex :=
  if 0 ≤ x.2 then .integer (x.1 * 2 ^ x.2.toNat)
  else if x.1 % 2 ^ (-x.2).toNat = 0 then .integer (x.1 / 2 ^ (-x.2).toNat)
  else .other

/-- ECMAScript `CanonicalNumericIndexString`; `none` is `undefined`. -/
def canonicalNumericIndexString (name : String) : Option NumericIndex :=
  if name = "-0" ∨ name = "NaN" ∨ name = "Infinity" ∨ name = "-Infinity" then some .other
  else if name = "0" then some (.integer 0)
  else
    match name.toList with
    | '-' :: cs => (canonicalPositive cs).map (fun _ => NumericIndex.other)
    | cs => (canonicalPositive cs).map doubleIndex

/-- ECMAScript `IsValidIntegerIndex` for a `Uint8Array` with the bytes `u`. -/
def isValidIntegerIndex (u : Bytes) : NumericIndex → Bool
  | .integer i => decide (i < u.length)
  | .other => false

/-! ## The dictionary `new_contents` -/

/-- The own properties of `%Object.prototype%` whose value is a function. -/
def objectPrototypeFunctions : List String :=
  ["constructor", "__defineGetter__", "__defineSetter__", "hasOwnProperty",
   "__lookupGetter__", "__lookupSetter__", "isPrototypeOf", "propertyIsEnumerable",
   "toString", "valueOf", "toLocaleString"]

/-- The properties of `Uint8Array.prototype` and `%TypedArray%.prototype` whose value is a
function. -/
def typedArrayPrototypeFunctions : List String :=
  ["constructor", "at", "copyWithin", "entries", "every", "fill", "filter", "find",
   "findIndex", "findLast", "findLastIndex", "forEach", "includes", "indexOf", "join",
   "keys", "lastIndexOf", "map", "reduce", "reduceRight", "reverse", "set", "slice",
   "some", "sort", "subarray", "toLocaleString", "toReversed", "toSorted", "toString",
   "values", "with"]

/-- The accessor properties of `%TypedArray%.prototype`: they have no setter, and their
getters throw a `TypeError` on a receiver that is not a typed array. -/
def typedArrayPrototypeGetters : List String :=
  ["buffer", "byteLength", "byteOffset", "length"]

/-- The object `new_contents`: its own properties (every value is a downloaded
`Uint8Array`) and its prototype, `%Object.prototype%` (`none`) or the `Uint8Array` that an
assignment to `__proto__` has put there. -/
structure NewContents where
  own : String → Option Bytes
  proto : Option Bytes

/-- The object `{}` of line 74. -/
def NewContents.empty : NewContents :=
  { own := fun _ => none, proto := none }

/-- Creation or update of an own data property. -/
def NewContents.define (o : NewContents) (name : String) (content : Bytes) : NewContents :=
  { o with own := fun k => if k = name then some content else o.own k }

/-- The assignment `new_contents[name] = content` of line 78 in strict code; `none` is a
thrown `TypeError`.  An own property is overwritten.  Otherwise the prototype chain
decides: through `%Object.prototype%` alone every name but `__proto__` gets a new own
property, `__proto__` reaches the setter that replaces the prototype; through a
`Uint8Array` a numeric name gets an own property only when it is a valid index
(otherwise the assignment is dropped), `BYTES_PER_ELEMENT` (read-only) and the
setter-less accessors throw. -/
def NewContents.set (o : NewContents) (name : String) (content : Bytes) :
    Option NewContents :=
  if (o.own name).isSome then some (o.define name content)
  else
    match o.proto with
    | none =>
      if name = "__proto__" then some { o with proto := some content }
      else some (o.define name content)
    | some u =>
      match canonicalNumericIndexString name with
      | some index =>
        if isValidIntegerIndex u index then some (o.define name content) else some o
      | none =>
        if name = "BYTES_PER_ELEMENT" ∨ name ∈ typedArrayPrototypeGetters then none
        else if name = "__proto__" then some { o with proto := some content }
        else some (o.define name content)

/-- The read `new_contents[name]` of line 91; the outer `none` is a thrown `TypeError`,
the inner `none` is `undefined`. -/
def NewContents.get (o : NewContents) (name : String) : Option (Option JSValue) :=
  match o.own name with
  | some b => some (some (.stored (.bytes b)))
  | none =>
    match o.proto with
    | none =>
      if name = "__proto__" then some (some .objectPrototype)
      else if name ∈ objectPrototypeFunctions then some (some .function)
      else some none
    | some u =>
      match canonicalNumericIndexString name with
      | some (.integer i) => some ((u.get? i).map (fun b => .stored (.number b.val)))
      | some .other => some none
      | none =>
        if name = "BYTES_PER_ELEMENT" then some (some (.stored (.number 1)))
        else if name ∈ typedArrayPrototypeGetters then none
        else if name ∈ typedArrayPrototypeFunctions ∨ name ∈ objectPrototypeFunctions then
          some (some .function)
        else if name = "__proto__" then some (some (.stored (.bytes u)))
        else some none

/-- JavaScript truthiness (`ToBoolean`). -/
def JSValue.truthy : JSValue → Bool
  | .stored .null => false
  | .stored (.number 0) => false
  | _ => true

/-! ## The functions of the source -/

/-- Source `fetch_resources_from_server` (lines 11-15). -/
def fetch_resources_from_server (srv : Server) : Option (List ResourceDescriptor) :=
  srv.enumerate

/-- Source `download_resource` (lines 17-22). -/
def download_resource (srv : Server) (resource : ResourceDescriptor) : Option Bytes :=
  srv.get resource.name

/-- Source `fetch_resources_from_db` (lines 24-36): `store.getAll()`. -/
def fetch_resources_from_db (db : Store) : List CacheRecord :=
  db

/-- Source `put_resource_in_db` (lines 38-51).  The returned promise is dropped by the
caller, so a request that fails, in the structured clone or on the unique index, only
leaves the store unchanged. -/
def put_resource_in_db (db : Store) (resource : ResourceObject) : Store :=
  match structuredClone resource with
  | none => db
  | some record => db.put record

/-- The condition of lines 63-67 under which a server resource is pushed to
`to_download`. -/
def stale (db_resources : List CacheRecord) (server_resource : ResourceDescriptor) : Bool :=
  match db_resources.find? (fun db_resource => db_resource.name == server_resource.name) with
  | none => true
  | some db_resource =>
    db_resource.hash != server_resource.hash ||
    db_resource.size != server_resource.size ||
    db_resource.content == Content.null

/-- The array `to_download` after the `forEach` of lines 61-70. -/
def to_download (server_resources : List ResourceDescriptor)
    (db_resources : List CacheRecord) : List ResourceDescriptor :=
  server_resources.foldl
    (fun acc server_resource =>
      if stale db_resources server_resource then acc ++ [server_resource] else acc) []

/-- The download loop of lines 75-79, run on the remaining resources with the dictionary
filled so far.  Returns the calls of `download_resource` made, in order, and the final
dictionary, or `none` when the loop was left by an exception: a failed download (the
`await` throws) or an assignment that throws. -/
def download_loop (srv : Server) :
    List ResourceDescriptor → NewContents → List ResourceDescriptor × Option NewContents
  | [], new_contents => ([], some new_contents)
  | resource :: rest, new_contents =>
    match download_resource srv resource with
    | none => ([resource], none)
    | some content =>
      match new_contents.set resource.name content with
      | none => ([resource], none)
      | some new_contents =>
        let r := download_loop srv rest new_contents
        (resource :: r.1, r.2)

/-- The `object` built at lines 85-92; `none` when the read of `new_contents` throws. -/
def merged_object (new_contents : NewContents) (db_resources : List CacheRecord)
    (server_resource : ResourceDescriptor) : Option ResourceObject :=
  let db_resource := db_resources.find? (fun db_resource => db_resource.name == server_resource.name)
  let fallback : JSValue :=
    match db_resource with
    | some db_resource => .stored db_resource.content
    | none => .stored .null
  match new_contents.get server_resource.name with
  | none => none
  | some value =>
    some
      { id := server_resource.name
        name := server_resource.name
        hash := server_resource.hash
        size := server_resource.size
        content :=
          match value with
          | some v => if v.truthy then v else fallback
          | none => fallback }

/-- The `forEach` of lines 84-94 on the remaining server resources: whether the callback
threw, the objects passed to `put_resource_in_db`, in order, and the store after
these puts. -/
def put_loop (new_contents : NewContents) (db_resources : List CacheRecord) :
    List ResourceDescriptor → Store → Bool × List ResourceObject × Store
  | [], db => (false, [], db)
  | server_resource :: rest, db =>
    match merged_object new_contents db_resources server_resource with
    | none => (true, [], db)
    | some object =>
      let r := put_loop new_contents db_resources rest (put_resource_in_db db object)
      (r.1, object :: r.2.1, r.2.2)

/-- What one call of `update_resources_cache` did: whether its promise rejected, the calls
of `download_resource` in order, the objects passed to `put_resource_in_db` in order,
and the store afterwards. -/
structure Pass where
  raised : Bool
  fetched : List ResourceDescriptor
  puts : List ResourceObject
  store : Store
  deriving DecidableEq, Repr

/-- Source `update_resources_cache` (lines 54-96). -/
def update_resources_cache (srv : Server) (db : Store) : Pass :=
  match fetch_resources_from_server srv with
  | none => { raised := true, fetched := [], puts := [], store := db }
  | some server_resources =>
    let db_resources := fetch_resources_from_db db
    let to_dl := to_download server_resources db_resources
    if to_dl.length ≠ 0 then
      match download_loop srv to_dl NewContents.empty with
      | (calls, none) => { raised := true, fetched := calls, puts := [], store := db }
      | (calls, some new_contents) =>
        let r := put_loop new_contents db_resources server_resources db
        { raised := r.1, fetched := calls, puts := r.2.1, store := r.2.2 }
    else { raised := false, fetched := [], puts := [], store := db }

/-! ## Predicates of the statements -/

/-- Every record is stored under its name (`id = name`), as in every record this
program writes. -/
def KeyedByName (db : Store) : Prop := ∀ r ∈ db, r.id = r.name

instance (db : Store) : Decidable (KeyedByName db) := by
  unfold KeyedByName; infer_instance

/-- Staleness in the words of the specification: no local record has the name of the
descriptor, or the local record found under that name differs in hash or in size, or
its content is absent (`null`). -/
def Stale (db_resources : List CacheRecord) (d : ResourceDescriptor) : Prop :=
  (∀ r ∈ db_resources, r.name ≠ d.name) ∨
  ∃ r, db_resources.find? (fun x => x.name == d.name) = some r ∧
    (r.hash ≠ d.hash ∨ r.size ≠ d.size ∨ r.content = Content.null)

/-- The content fetch of a descriptor succeeds. -/
def fetch_ok (srv : Server) (d : ResourceDescriptor) : Bool :=
  (download_resource srv d).isSome

/-- The dictionary `new_contents` at line 81 when no stale descriptor is named `__proto__`
and every download of the pass succeeded: the downloaded bytes as own property under
the name of every resource of `to_download`, the prototype still `%Object.prototype%`. -/
def fetched_contents (srv : Server) (server_resources : List ResourceDescriptor)
    (db_resources : List CacheRecord) : NewContents :=
  { own := fun k =>
      if k ∈ (to_download server_resources db_resources).map (fun d => d.name) then srv.get k
      else none
    proto := none }

/-- No stale descriptor of the manifest is named `__proto__`: the prototype of
`new_contents` stays `%Object.prototype%` during the pass. -/
def NoStaleProto (db : Store) (m : List ResourceDescriptor) : Prop :=
  ∀ d ∈ m, stale db d = true → d.name ≠ "__proto__"

instance (db : Store) (m : List ResourceDescriptor) : Decidable (NoStaleProto db m) := by
  unfold NoStaleProto; infer_instance

/-! ## Example data -/

/-- Descriptor `a` of the end-to-end example P5. -/
def descA : ResourceDescriptor := { name := "a", hash := "h1", size := 3 }

/-- A second descriptor, `b`. -/
def descB : ResourceDescriptor := { name := "b", hash := "new", size := 2 }

/-- The local record of the example P6. -/
def recB : CacheRecord :=
  { id := "b", name := "b", hash := "old", size := 1, content := .bytes [9] }

/-- A server with manifest `[a, b]` on which the content of `a` cannot be fetched. -/
def srvFailA : Server :=
  { enumerate := some [descA, descB]
    get := fun n => if n = "a" then none else some [7, 7] }

/-- A server with manifest `[b]` on which no content can be fetched. -/
def srvFailB : Server :=
  { enumerate := some [descB], get := fun _ => none }

/-- A server with manifest `[a]` on which `a` has the bytes `[1, 2, 3]`. -/
def srvA : Server :=
  { enumerate := some [descA], get := fun _ => some [1, 2, 3] }

/-- A server whose manifest names `a` twice. -/
def srvDup : Server :=
  { enumerate := some [descA, { name := "a", hash := "h2", size := 4 }]
    get := fun _ => some [1, 2, 3] }

/-- A server whose manifest cannot be fetched. -/
def srvDown : Server :=
  { enumerate := none, get := fun _ => some [1] }

/-- Five descriptors (example P3). -/
def manifest5 : List ResourceDescriptor :=
  [ { name := "r1", hash := "x1", size := 1 },
    { name := "r2", hash := "x2", size := 2 },
    { name := "r3", hash := "x3", size := 3 },
    { name := "r4", hash := "x4", size := 4 },
    { name := "r5", hash := "x5", size := 5 } ]

/-- Local records matching `r1`, `r3`, `r4` of `manifest5` and differing on `r2` (hash)
and `r5` (size). -/
def store5 : Store :=
  [ { id := "r1", name := "r1", hash := "x1", size := 1, content := .bytes [1] },
    { id := "r2", name := "r2", hash := "y2", size := 2, content := .bytes [2] },
    { id := "r3", name := "r3", hash := "x3", size := 3, content := .bytes [3] },
    { id := "r4", name := "r4", hash := "x4", size := 4, content := .bytes [4] },
    { id := "r5", name := "r5", hash := "x5", size := 6, content := .bytes [5] } ]

/-- A server listing `manifest5` and serving one byte for every name. -/
def srv5 : Server :=
  { enumerate := some manifest5, get := fun _ => some [0] }

/-- A resource named `__proto__`. -/
def descProto : ResourceDescriptor := { name := "__proto__", hash := "hp", size := 3 }

/-- A resource named `length`. -/
def descLength : ResourceDescriptor := { name := "length", hash := "hl", size := 3 }

/-- A resource named `7`. -/
def desc7 : ResourceDescriptor := { name := "7", hash := "h7", size := 3 }

/-- A local record for `__proto__` that matches `descProto`, with content `[5, 5, 5]`. -/
def recProto : CacheRecord :=
  { id := "__proto__", name := "__proto__", hash := "hp", size := 3, content := .bytes [5, 5, 5] }

/-- A server with manifest `[__proto__, length]` serving three bytes for every name. -/
def srvProtoLength : Server :=
  { enumerate := some [descProto, descLength], get := fun _ => some [1, 2, 3] }

/-- A server with manifest `[__proto__, 7]` serving three bytes for every name. -/
def srvProto7 : Server :=
  { enumerate := some [descProto, desc7], get := fun _ => some [1, 2, 3] }

/-- A server with manifest `[__proto__, 7]` on which no content can be fetched. -/
def srvProto7Unreachable : Server :=
  { enumerate := some [descProto, desc7], get := fun _ => none }

/-- A server with manifest `[__proto__]` serving the bytes `[5, 5, 5]`. -/
def srvProtoOnly : Server :=
  { enumerate := some [descProto], get := fun _ => some [5, 5, 5] }

/-- A server with manifest `[__proto__, a]` serving three bytes for every name. -/
def srvProtoA : Server :=
  { enumerate := some [descProto, descA], get := fun _ => some [1, 2, 3] }

/-! ## The diff and the download loop -/

theorem to_download_foldl (db : List CacheRecord) (m acc : List ResourceDescriptor) :
    m.foldl (fun acc server_resource =>
      if stale db server_resource then acc ++ [server_resource] else acc) acc
      = acc ++ m.filter (stale db) := by
  induction m generalizing acc with
  | nil => simp
  | cons d rest ih =>
    simp only [List.foldl_cons, ih, List.filter_cons]
    by_cases h : stale db d = true <;> simp [h]

theorem to_download_eq_filter (m : List ResourceDescriptor) (db : List CacheRecord) :
    to_download m db = m.filter (stale db) := by
  simp [to_download, to_download_foldl]

/-- While the prototype is `%Object.prototype%`, an assignment under a name other than
`__proto__` creates or updates an own property. -/
theorem set_of_proto_none (o : NewContents) (name : String) (c : Bytes)
    (hp : o.proto = none) (hn : name ≠ "__proto__") :
    o.set name c = some (o.define name c) := by
  unfold NewContents.set
  by_cases h : (o.own name).isSome = true
  · simp [h]
  · simp [h, hp, hn]

/-- A failed download leaves the loop with an exception, whatever the assignments did. -/
theorem download_loop_fail (srv : Server) (l : List ResourceDescriptor) (nc : NewContents)
    (h : ∃ d ∈ l, download_resource srv d = none) : (download_loop srv l nc).2 = none := by
  induction l generalizing nc with
  | nil => simp at h
  | cons d rest ih =>
    cases hd : download_resource srv d with
    | none => simp [download_loop, hd]
    | some c =>
      cases hs : nc.set d.name c with
      | none => simp [download_loop, hd, hs]
      | some nc2 =>
        simp only [download_loop, hd, hs]
        apply ih
        obtain ⟨x, hx, hx2⟩ := h
        rcases List.mem_cons.1 hx with rfl | hx
        · rw [hd] at hx2; cases hx2
        · exact ⟨x, hx, hx2⟩

theorem download_loop_calls (srv : Server) (l : List ResourceDescriptor) (nc : NewContents)
    (hp : nc.proto = none) (hn : ∀ d ∈ l, d.name ≠ "__proto__") :
    (download_loop srv l nc).1
      = l.takeWhile (fetch_ok srv) ++ (l.dropWhile (fetch_ok srv)).take 1 := by
  induction l generalizing nc with
  | nil => simp [download_loop]
  | cons d rest ih =>
    cases h : download_resource srv d with
    | none => simp [download_loop, h, fetch_ok, List.takeWhile_cons, List.dropWhile_cons]
    | some c =>
      have hs := set_of_proto_none nc d.name c hp (hn d (List.mem_cons_self _ _))
      simp [download_loop, h, hs, fetch_ok, List.takeWhile_cons, List.dropWhile_cons]
      simpa [fetch_ok] using ih (nc.define d.name c) hp
        (fun x hx => hn x (List.mem_cons_of_mem _ hx))

theorem download_loop_ok (srv : Server) (l : List ResourceDescriptor) (nc : NewContents)
    (hp : nc.proto = none) (hn : ∀ d ∈ l, d.name ≠ "__proto__")
    (h : ∀ d ∈ l, fetch_ok srv d = true) :
    download_loop srv l nc
      = (l, some { own := fun k => if k ∈ l.map (fun d => d.name) then srv.get k
                                   else nc.own k
                   proto := none }) := by
  induction l generalizing nc with
  | nil =>
    cases nc
    simp only at hp
    simp [download_loop, hp]
  | cons d rest ih =>
    have hd := h d (List.mem_cons_self _ _)
    simp only [fetch_ok, Option.isSome_iff_exists] at hd
    obtain ⟨c, hc⟩ := hd
    have hs := set_of_proto_none nc d.name c hp (hn d (List.mem_cons_self _ _))
    have ih2 := ih (nc.define d.name c) hp (fun x hx => hn x (List.mem_cons_of_mem _ hx))
      (fun x hx => h x (List.mem_cons_of_mem _ hx))
    simp only [download_loop, hc, hs, ih2, Prod.mk.injEq, true_and, Option.some.injEq,
      NewContents.mk.injEq, and_true]
    funext k
    by_cases hk : k ∈ rest.map (fun d => d.name)
    · have : k ∈ (d :: rest).map (fun d => d.name) := by simp at hk ⊢; exact Or.inr hk
      simp [hk, this]
    · by_cases hkd : k = d.name
      · subst hkd
        simp [hk, NewContents.define]
        exact hc.symm
      · have : k ∉ (d :: rest).map (fun d => d.name) := by
          simp at hk ⊢; exact ⟨hkd, hk⟩
        simp [hk, this, NewContents.define, hkd]

/-! ## The object store -/

theorem find_name_eq_get (db : Store) (hk : KeyedByName db) (k : String) :
    db.find? (fun r => r.name == k) = db.get? k := by
  unfold Store.get?
  induction db with
  | nil => rfl
  | cons r rest ih =>
    have hr : r.id = r.name := hk r (List.mem_cons_self _ _)
    have ih2 := ih (fun x hx => hk x (List.mem_cons_of_mem _ hx))
    simp only [List.find?_cons, hr, ih2]

theorem mem_insertKey (o x : CacheRecord) (db : Store) :
    x ∈ insertKey o db ↔ x = o ∨ x ∈ db := by
  induction db with
  | nil => simp [insertKey]
  | cons r rest ih =>
    unfold insertKey
    split
    · simp
    · simp only [List.mem_cons, ih]
      tauto

theorem get_insertKey (o : CacheRecord) (db : Store) (k : String)
    (hnew : ∀ r ∈ db, r.id ≠ o.id) :
    Store.get? (insertKey o db) k = if k = o.id then some o else db.get? k := by
  induction db with
  | nil =>
    by_cases h : k = o.id
    · simp [insertKey, Store.get?, h]
    · have h2 : ¬ o.id = k := fun e => h e.symm
      simp [insertKey, Store.get?, h, h2]
  | cons r rest ih =>
    have hr : r.id ≠ o.id := hnew r (List.mem_cons_self _ _)
    have ih2 := ih (fun x hx => hnew x (List.mem_cons_of_mem _ hx))
    unfold insertKey
    by_cases h : k = o.id
    · subst h
      split
      · simp [Store.get?]
      · simp only [Store.get?] at ih2 ⊢
        simp [List.find?_cons, hr, ih2]
    · have h2 : ¬ o.id = k := fun e => h e.symm
      split
      · simp [Store.get?, List.find?_cons, h2, h]
      · simp only [Store.get?] at ih2 ⊢
        simp only [List.find?_cons, ih2, h, if_false]

theorem get_map_replace_ne (o : CacheRecord) (db : Store) (k : String) (h : k ≠ o.id) :
    Store.get? (db.map (fun r => if r.id == o.id then o else r)) k = db.get? k := by
  have h2 : (o.id == k) = false := by simpa using fun e : o.id = k => h e.symm
  induction db with
  | nil => rfl
  | cons r rest ih =>
    simp only [Store.get?] at ih ⊢
    by_cases hr : r.id = o.id
    · have h3 : (r.id == k) = false := by rw [hr]; exact h2
      simp only [List.map_cons, List.find?_cons, hr, beq_self_eq_true, if_true, h2, h3]
      exact ih
    · have hr2 : (r.id == o.id) = false := by simpa using hr
      simp only [List.map_cons, List.find?_cons, hr2, Bool.false_eq_true, if_false]
      rw [ih]

theorem get_map_replace_self (o : CacheRecord) (db : Store)
    (hex : ∃ r ∈ db, r.id = o.id) :
    Store.get? (db.map (fun r => if r.id == o.id then o else r)) o.id = some o := by
  induction db with
  | nil => simp at hex
  | cons r rest ih =>
    simp only [Store.get?] at ih ⊢
    by_cases hr : r.id = o.id
    · simp only [List.map_cons, List.find?_cons, hr, beq_self_eq_true, if_true]
    · have hr2 : (r.id == o.id) = false := by simpa using hr
      have hrest : ∃ x ∈ rest, x.id = o.id := by
        obtain ⟨x, hx, hx2⟩ := hex
        rcases List.mem_cons.1 hx with rfl | hx
        · exact absurd hx2 hr
        · exact ⟨x, hx, hx2⟩
      simp only [List.map_cons, List.find?_cons, hr2, Bool.false_eq_true, if_false]
      exact ih hrest

/-- A put under a key other than `k` does not change the record stored under `k`. -/
theorem get_put_of_ne (db : Store) (o : CacheRecord) (k : String) (h : k ≠ o.id) :
    Store.get? (db.put o) k = db.get? k := by
  unfold Store.put
  split
  · rfl
  · split
    · rename_i _ hex
      exact get_map_replace_ne o db k h
    · rename_i _ hex
      rw [get_insertKey o db k (by simpa using hex)]
      simp [h]

/-- In a store keyed by name, a put of a record keyed by its name succeeds. -/
theorem get_put_self (db : Store) (hk : KeyedByName db) (o : CacheRecord) (ho : o.id = o.name) :
    Store.get? (db.put o) o.id = some o := by
  have hc : db.any (fun r => r.id != o.id && r.name == o.name) = false := by
    rw [Bool.eq_false_iff]
    intro hany
    simp only [List.any_eq_true, Bool.and_eq_true, bne_iff_ne, ne_eq, beq_iff_eq] at hany
    obtain ⟨x, hx, hne, hname⟩ := hany
    exact hne (by rw [hk x hx, hname, ho])
  unfold Store.put
  rw [hc]
  simp only [Bool.false_eq_true, if_false]
  split
  · rename_i hex
    exact get_map_replace_self o db (by simpa using hex)
  · rename_i hex
    rw [get_insertKey o db _ (by simpa using hex)]
    simp

theorem keyed_put (db : Store) (hk : KeyedByName db) (o : CacheRecord) (ho : o.id = o.name) :
    KeyedByName (db.put o) := by
  unfold Store.put
  split
  · exact hk
  · split
    · intro r hr
      simp only [List.mem_map] at hr
      obtain ⟨x, hx, rfl⟩ := hr
      split
      · exact ho
      · exact hk x hx
    · intro r hr
      rcases (mem_insertKey o r db).1 hr with rfl | hr
      · exact ho
      · exact hk r hr

theorem mem_put_of_ne (db : Store) (o x : CacheRecord) (hx : x ∈ db) (h : x.id ≠ o.id) :
    x ∈ db.put o := by
  unfold Store.put
  split
  · exact hx
  · split
    · simp only [List.mem_map]
      exact ⟨x, hx, by simp [h]⟩
    · exact (mem_insertKey o x db).2 (Or.inr hx)

theorem structuredClone_id (o : ResourceObject) (r : CacheRecord)
    (h : structuredClone o = some r) : r.id = o.id ∧ r.name = o.name := by
  unfold structuredClone at h
  split at h
  · cases h
  · cases h; exact ⟨rfl, rfl⟩
  · cases h; exact ⟨rfl, rfl⟩

theorem get_putres_of_ne (db : Store) (o : ResourceObject) (k : String) (h : k ≠ o.id) :
    Store.get? (put_resource_in_db db o) k = db.get? k := by
  unfold put_resource_in_db
  cases hc : structuredClone o with
  | none => rfl
  | some r =>
    simp only
    exact get_put_of_ne db r k (by rw [(structuredClone_id o r hc).1]; exact h)

theorem mem_putres_of_ne (db : Store) (o : ResourceObject) (x : CacheRecord) (hx : x ∈ db)
    (h : x.id ≠ o.id) : x ∈ put_resource_in_db db o := by
  unfold put_resource_in_db
  cases hc : structuredClone o with
  | none => exact hx
  | some r =>
    simp only
    exact mem_put_of_ne db r x hx (by rw [(structuredClone_id o r hc).1]; exact h)

theorem keyed_putres (db : Store) (hk : KeyedByName db) (o : ResourceObject)
    (ho : o.id = o.name) : KeyedByName (put_resource_in_db db o) := by
  unfold put_resource_in_db
  cases hc : structuredClone o with
  | none => exact hk
  | some r =>
    simp only
    have := structuredClone_id o r hc
    exact keyed_put db hk r (by rw [this.1, this.2]; exact ho)

/-! ## The loop of puts -/

theorem merged_object_id (nc : NewContents) (db : List CacheRecord) (sr : ResourceDescriptor)
    (o : ResourceObject) (h : merged_object nc db sr = some o) :
    o.id = sr.name ∧ o.name = sr.name ∧ o.hash = sr.hash ∧ o.size = sr.size := by
  unfold merged_object at h
  simp only at h
  split at h
  · cases h
  · cases h; exact ⟨rfl, rfl, rfl, rfl⟩

/-- While the prototype is `%Object.prototype%` no read of `new_contents` throws. -/
theorem merged_object_of_proto_none (nc : NewContents) (db : List CacheRecord)
    (sr : ResourceDescriptor) (hp : nc.proto = none) :
    ∃ o, merged_object nc db sr = some o := by
  have hg : ∃ v, nc.get sr.name = some v := by
    unfold NewContents.get
    cases nc.own sr.name with
    | some b => exact ⟨_, rfl⟩
    | none =>
      simp only [hp]
      split
      · exact ⟨_, rfl⟩
      · split
        · exact ⟨_, rfl⟩
        · exact ⟨_, rfl⟩
  obtain ⟨v, hv⟩ := hg
  unfold merged_object
  simp only [hv]
  exact ⟨_, rfl⟩

theorem put_loop_of_proto_none (nc : NewContents) (dbr : List CacheRecord)
    (l : List ResourceDescriptor) (db : Store) (hp : nc.proto = none) :
    (put_loop nc dbr l db).1 = false ∧
    (put_loop nc dbr l db).2.1.map (fun o => o.id) = l.map (fun d => d.name) := by
  induction l generalizing db with
  | nil => exact ⟨rfl, rfl⟩
  | cons sr rest ih =>
    obtain ⟨o, ho⟩ := merged_object_of_proto_none nc dbr sr hp
    have hid := (merged_object_id nc dbr sr o ho).1
    have := ih (put_resource_in_db db o)
    simp only [put_loop, ho, List.map_cons, this.1, this.2, hid, and_self]

theorem put_loop_ids (nc : NewContents) (dbr : List CacheRecord)
    (l : List ResourceDescriptor) (db : Store) :
    ∀ o ∈ (put_loop nc dbr l db).2.1, o.id ∈ l.map (fun d => d.name) ∧ o.id = o.name := by
  induction l generalizing db with
  | nil => intro o ho; simp [put_loop] at ho
  | cons sr rest ih =>
    cases hm : merged_object nc dbr sr with
    | none => intro o ho; simp [put_loop, hm] at ho
    | some obj =>
      have hid := merged_object_id nc dbr sr obj hm
      intro o ho
      simp only [put_loop, hm, List.mem_cons] at ho
      rcases ho with rfl | ho
      · exact ⟨by simp [hid.1], by rw [hid.1, hid.2.1]⟩
      · have := ih (put_resource_in_db db obj) o ho
        exact ⟨List.mem_cons_of_mem _ this.1, this.2⟩

theorem put_loop_frame (nc : NewContents) (dbr : List CacheRecord)
    (l : List ResourceDescriptor) (db : Store) (x : CacheRecord) (hx : x ∈ db)
    (hn : x.id ∉ l.map (fun d => d.name)) :
    x ∈ (put_loop nc dbr l db).2.2 ∧
    Store.get? (put_loop nc dbr l db).2.2 x.id = db.get? x.id := by
  induction l generalizing db with
  | nil => exact ⟨hx, rfl⟩
  | cons sr rest ih =>
    cases hm : merged_object nc dbr sr with
    | none =>
      rw [show put_loop nc dbr (sr :: rest) db = (true, [], db) by simp only [put_loop, hm]]
      exact ⟨hx, rfl⟩
    | some obj =>
      have hid := (merged_object_id nc dbr sr obj hm).1
      have hne : x.id ≠ obj.id := by
        intro e
        apply hn
        rw [e, hid]
        exact List.mem_cons_self _ _
      have hrest : x.id ∉ rest.map (fun d => d.name) := fun hmem =>
        hn (List.mem_cons_of_mem _ hmem)
      have := ih (put_resource_in_db db obj) (mem_putres_of_ne db obj x hx hne) hrest
      simp only [put_loop, hm]
      exact ⟨this.1, this.2.trans (get_putres_of_ne db obj x.id hne)⟩

theorem keyed_put_loop (nc : NewContents) (dbr : List CacheRecord)
    (l : List ResourceDescriptor) (db : Store) (hk : KeyedByName db) :
    KeyedByName (put_loop nc dbr l db).2.2 := by
  induction l generalizing db with
  | nil => exact hk
  | cons sr rest ih =>
    cases hm : merged_object nc dbr sr with
    | none => simp only [put_loop, hm]; exact hk
    | some obj =>
      have hid := merged_object_id nc dbr sr obj hm
      simp only [put_loop, hm]
      exact ih _ (keyed_putres db hk obj (by rw [hid.1, hid.2.1]))

/-! ## The ways a pass can go -/

theorem filter_stale_ne_nil (db : Store) (m : List ResourceDescriptor)
    (h : ∃ d ∈ m, stale db d = true) : (m.filter (stale db)).length ≠ 0 := by
  obtain ⟨d, hd, hs⟩ := h
  have hmem : d ∈ m.filter (stale db) := List.mem_filter.2 ⟨hd, hs⟩
  intro h0
  rw [List.length_eq_zero] at h0
  rw [h0] at hmem
  cases hmem

theorem not_stale_of_not_exists (db : Store) (m : List ResourceDescriptor)
    (hs : ¬ ∃ d ∈ m, stale db d = true) : ∀ d ∈ m, stale db d = false := by
  intro d hd
  by_contra hno
  exact hs ⟨d, hd, by simpa using hno⟩

theorem all_ok_of_not_fail (srv : Server) (db : Store) (m : List ResourceDescriptor)
    (hf : ¬ ∃ d ∈ m, stale db d = true ∧ download_resource srv d = none) :
    ∀ d ∈ m, stale db d = true → fetch_ok srv d = true := by
  intro d hd hs
  by_contra hno
  apply hf
  refine ⟨d, hd, hs, ?_⟩
  simpa [fetch_ok] using hno

theorem update_manifest_fail (srv : Server) (db : Store) (h : srv.enumerate = none) :
    update_resources_cache srv db = { raised := true, fetched := [], puts := [], store := db } := by
  simp [update_resources_cache, fetch_resources_from_server, h]

theorem update_all_fresh (srv : Server) (db : Store) (m : List ResourceDescriptor)
    (h : srv.enumerate = some m) (hf : ∀ d ∈ m, stale db d = false) :
    update_resources_cache srv db
      = { raised := false, fetched := [], puts := [], store := db } := by
  have : m.filter (stale db) = [] := by
    rw [List.filter_eq_nil_iff]
    intro d hd
    simp [hf d hd]
  simp [update_resources_cache, fetch_resources_from_server, fetch_resources_from_db, h,
    to_download_eq_filter, this]

/-- When the content fetch of a stale descriptor fails the pass raises before any put. -/
theorem update_fetch_fail (srv : Server) (db : Store) (m : List ResourceDescriptor)
    (h : srv.enumerate = some m)
    (hf : ∃ d ∈ m, stale db d = true ∧ download_resource srv d = none) :
    (update_resources_cache srv db).raised = true ∧
    (update_resources_cache srv db).puts = [] ∧
    (update_resources_cache srv db).store = db := by
  obtain ⟨d, hd, hs, hn⟩ := hf
  have hmem : d ∈ m.filter (stale db) := List.mem_filter.2 ⟨hd, hs⟩
  have hne := filter_stale_ne_nil db m ⟨d, hd, hs⟩
  have h2 := download_loop_fail srv (m.filter (stale db)) NewContents.empty ⟨d, hmem, hn⟩
  simp only [update_resources_cache, fetch_resources_from_server, fetch_resources_from_db, h,
    to_download_eq_filter]
  rw [if_pos hne]
  rcases hdl : download_loop srv (m.filter (stale db)) NewContents.empty with ⟨calls, res⟩
  rw [hdl] at h2
  simp only at h2
  subst h2
  exact ⟨rfl, rfl, rfl⟩

theorem noStaleProto_filter (db : Store) (m : List ResourceDescriptor)
    (hnp : NoStaleProto db m) : ∀ d ∈ m.filter (stale db), d.name ≠ "__proto__" :=
  fun d hd => hnp d (List.mem_filter.1 hd).1 (List.mem_filter.1 hd).2

/-- The calls of the content fetch, when no stale descriptor is named `__proto__`. -/
theorem update_fetched (srv : Server) (db : Store) (m : List ResourceDescriptor)
    (h : srv.enumerate = some m) (hnp : NoStaleProto db m) :
    (update_resources_cache srv db).fetched
      = (m.filter (stale db)).takeWhile (fetch_ok srv)
          ++ ((m.filter (stale db)).dropWhile (fetch_ok srv)).take 1 := by
  by_cases hs : ∃ d ∈ m, stale db d = true
  · have hne := filter_stale_ne_nil db m hs
    have h1 := download_loop_calls srv (m.filter (stale db)) NewContents.empty rfl
      (noStaleProto_filter db m hnp)
    simp only [update_resources_cache, fetch_resources_from_server, fetch_resources_from_db, h,
      to_download_eq_filter]
    rw [if_pos hne]
    rcases hdl : download_loop srv (m.filter (stale db)) NewContents.empty with ⟨calls, res⟩
    rw [hdl] at h1
    simp only at h1
    subst h1
    cases res <;> rfl
  · have hfresh := not_stale_of_not_exists db m hs
    rw [update_all_fresh srv db m h hfresh]
    have : m.filter (stale db) = [] := by
      rw [List.filter_eq_nil_iff]
      intro d hd
      simp [hfresh d hd]
    simp [this]

/-- A pass in which something is stale, no stale descriptor is named `__proto__`, and
every content fetch succeeds. -/
theorem update_fetch_ok (srv : Server) (db : Store) (m : List ResourceDescriptor)
    (h : srv.enumerate = some m) (hnp : NoStaleProto db m)
    (hs : ∃ d ∈ m, stale db d = true)
    (hf : ∀ d ∈ m, stale db d = true → fetch_ok srv d = true) :
    (update_resources_cache srv db).raised = false ∧
    (update_resources_cache srv db).fetched = m.filter (stale db) ∧
    (update_resources_cache srv db).puts.map (fun o => o.id) = m.map (fun d => d.name) := by
  have hne := filter_stale_ne_nil db m hs
  have hok := download_loop_ok srv (m.filter (stale db)) NewContents.empty rfl
    (noStaleProto_filter db m hnp)
    (fun x hx => hf x (List.mem_filter.1 hx).1 (List.mem_filter.1 hx).2)
  simp only [update_resources_cache, fetch_resources_from_server, fetch_resources_from_db, h,
    to_download_eq_filter]
  rw [if_pos hne, hok]
  simp only
  have := put_loop_of_proto_none
    { own := fun k => if k ∈ (m.filter (stale db)).map (fun d => d.name) then srv.get k
                      else NewContents.empty.own k
      proto := none } db m db rfl
  exact ⟨this.1, trivial, this.2⟩

theorem update_fetch_ok_store (srv : Server) (db : Store) (m : List ResourceDescriptor)
    (h : srv.enumerate = some m) (hnp : NoStaleProto db m)
    (hs : ∃ d ∈ m, stale db d = true)
    (hf : ∀ d ∈ m, stale db d = true → fetch_ok srv d = true) :
    (update_resources_cache srv db).store
      = (put_loop (fetched_contents srv m db) db m db).2.2 := by
  have hne := filter_stale_ne_nil db m hs
  have hok := download_loop_ok srv (m.filter (stale db)) NewContents.empty rfl
    (noStaleProto_filter db m hnp)
    (fun x hx => hf x (List.mem_filter.1 hx).1 (List.mem_filter.1 hx).2)
  simp only [update_resources_cache, fetch_resources_from_server, fetch_resources_from_db, h,
    to_download_eq_filter]
  rw [if_pos hne, hok]
  simp only [fetched_contents, to_download_eq_filter, NewContents.empty]

theorem put_loop_get_of_not_mem (nc : NewContents) (dbr : List CacheRecord)
    (l : List ResourceDescriptor) (db : Store) (k : String)
    (hn : k ∉ l.map (fun d => d.name)) :
    Store.get? (put_loop nc dbr l db).2.2 k = db.get? k := by
  induction l generalizing db with
  | nil => rfl
  | cons sr rest ih =>
    cases hm : merged_object nc dbr sr with
    | none =>
      rw [show put_loop nc dbr (sr :: rest) db = (true, [], db) by simp only [put_loop, hm]]
    | some obj =>
      have hid := (merged_object_id nc dbr sr obj hm).1
      have hne : k ≠ obj.id := by
        intro e
        apply hn
        rw [e, hid]
        exact List.mem_cons_self _ _
      have hrest : k ∉ rest.map (fun d => d.name) := fun hmem =>
        hn (List.mem_cons_of_mem _ hmem)
      simp only [put_loop, hm]
      exact (ih (put_resource_in_db db obj) hrest).trans (get_putres_of_ne db obj k hne)

/-- In a store keyed by name, a put of an object keyed by its name stores its clone, and
changes nothing when the clone fails. -/
theorem get_putres_self (db : Store) (hk : KeyedByName db) (o : ResourceObject)
    (ho : o.id = o.name) :
    Store.get? (put_resource_in_db db o) o.id
      = match structuredClone o with
        | some r => some r
        | none => db.get? o.id := by
  unfold put_resource_in_db
  cases hc : structuredClone o with
  | none => rfl
  | some r =>
    have hid := structuredClone_id o r hc
    simp only
    rw [← hid.1]
    exact get_put_self db hk r (by rw [hid.1, hid.2]; exact ho)

/-- The record under the name of a descriptor after the loop of puts, when the names of
the manifest are pairwise distinct and no read of `new_contents` throws. -/
theorem put_loop_get (nc : NewContents) (dbr : List CacheRecord)
    (l : List ResourceDescriptor) (db : Store) (hp : nc.proto = none)
    (hk : KeyedByName db) (hn : (l.map (fun d => d.name)).Nodup)
    (d : ResourceDescriptor) (hd : d ∈ l) (o : ResourceObject)
    (ho : merged_object nc dbr d = some o) :
    Store.get? (put_loop nc dbr l db).2.2 d.name
      = match structuredClone o with
        | some r => some r
        | none => db.get? d.name := by
  induction l generalizing db with
  | nil => cases hd
  | cons sr rest ih =>
    obtain ⟨obj, hobj⟩ := merged_object_of_proto_none nc dbr sr hp
    have hid := merged_object_id nc dbr sr obj hobj
    have hn2 : (rest.map (fun d => d.name)).Nodup := (List.nodup_cons.1 hn).2
    have hnot : sr.name ∉ rest.map (fun d => d.name) := (List.nodup_cons.1 hn).1
    simp only [put_loop, hobj]
    by_cases hmem : d ∈ rest
    · have hne : d.name ≠ obj.id := by
        intro e
        apply hnot
        rw [← hid.1, ← e]
        exact List.mem_map.2 ⟨d, hmem, rfl⟩
      rw [ih (put_resource_in_db db obj) (keyed_putres db hk obj (by rw [hid.1, hid.2.1]))
        hn2 hmem]
      cases structuredClone o with
      | some r => rfl
      | none => exact get_putres_of_ne db obj d.name hne
    · have hds : d = sr := by
        rcases List.mem_cons.1 hd with h | h
        · exact h
        · exact absurd h hmem
      subst hds
      have hoo : obj = o := by rw [hobj] at ho; exact Option.some.inj ho
      subst hoo
      rw [put_loop_get_of_not_mem nc dbr rest _ d.name hnot]
      have := get_putres_self db hk obj (by rw [hid.1, hid.2.1])
      rw [hid.1] at this
      exact this

/-- Either a pass issues no put and leaves the store alone, or its puts and its final store
are those of the loop of lines 84-94 run on the whole manifest. -/
theorem pass_puts_cases (srv : Server) (db : Store) (m : List ResourceDescriptor)
    (hm : srv.enumerate = some m) :
    ((update_resources_cache srv db).puts = [] ∧ (update_resources_cache srv db).store = db) ∨
    ∃ nc : NewContents,
      (update_resources_cache srv db).puts = (put_loop nc db m db).2.1 ∧
      (update_resources_cache srv db).store = (put_loop nc db m db).2.2 := by
  simp only [update_resources_cache, fetch_resources_from_server, fetch_resources_from_db, hm]
  split
  · rcases hdl : download_loop srv (to_download m db) NewContents.empty with ⟨calls, res⟩
    cases res with
    | none => exact Or.inl ⟨rfl, rfl⟩
    | some nc => exact Or.inr ⟨nc, rfl, rfl⟩
  · exact Or.inl ⟨rfl, rfl⟩

/-- Being keyed by name is an invariant of the program: it holds of the empty store and
every pass preserves it. -/
theorem keyedByName_invariant (srv : Server) (db : Store) (hk : KeyedByName db) :
    KeyedByName ([] : Store) ∧ KeyedByName (update_resources_cache srv db).store := by
  refine ⟨fun r hr => (by cases hr), ?_⟩
  cases hm : srv.enumerate with
  | none =>
    rw [update_manifest_fail srv db hm]
    exact hk
  | some m =>
    rcases pass_puts_cases srv db m hm with ⟨_, hst⟩ | ⟨nc, _, hst⟩
    · rw [hst]
      exact hk
    · rw [hst]
      exact keyed_put_loop nc db m db hk

/-! ## Staleness -/

theorem stale_iff (db : List CacheRecord) (d : ResourceDescriptor) :
    stale db d = true ↔ Stale db d := by
  unfold stale Stale
  cases hf : db.find? (fun x => x.name == d.name) with
  | none =>
    simp only [true_iff]
    left
    intro r hr
    have := List.find?_eq_none.1 hf r hr
    simpa using this
  | some r =>
    have hr := List.find?_some hf
    have hmem := List.mem_of_find?_eq_some hf
    simp only [Bool.or_eq_true, bne_iff_ne, ne_eq, beq_iff_eq, Option.some.injEq]
    constructor
    · intro h
      right
      exact ⟨r, rfl, by tauto⟩
    · rintro (h | ⟨r2, rfl, h⟩)
      · exact absurd (by simpa using hr) (h r hmem)
      · tauto

theorem stale_eq_false_iff (db : List CacheRecord) (d : ResourceDescriptor) :
    stale db d = false ↔
      ∃ r, db.find? (fun x => x.name == d.name) = some r ∧
        r.hash = d.hash ∧ r.size = d.size ∧ r.content ≠ Content.null := by
  unfold stale
  cases hf : db.find? (fun x => x.name == d.name) with
  | none => simp
  | some r =>
    simp only [Bool.or_eq_false_iff, bne_eq_false_iff_eq, beq_eq_false_iff_ne, ne_eq,
      Option.some.injEq, exists_eq_left', and_assoc]

/-! ## Manifests without the name `__proto__`

When no descriptor of the manifest is named `__proto__` the dictionary `new_contents`
behaves as intended, and the pass keeps the invariants I2 and I3. -/

theorem name_injOn (m : List ResourceDescriptor) (hn : (m.map (fun d => d.name)).Nodup)
    (d d2 : ResourceDescriptor) (hd : d ∈ m) (hd2 : d2 ∈ m) (h : d.name = d2.name) : d = d2 :=
  List.inj_on_of_nodup_map hn hd hd2 h

theorem fetched_contents_own (srv : Server) (db : Store) (m : List ResourceDescriptor)
    (hn : (m.map (fun d => d.name)).Nodup) (d : ResourceDescriptor) (hd : d ∈ m) :
    (fetched_contents srv m db).own d.name
      = if stale db d = true then srv.get d.name else none := by
  unfold fetched_contents
  rw [to_download_eq_filter]
  by_cases hs : stale db d = true
  · have : d.name ∈ (m.filter (stale db)).map (fun d => d.name) :=
      List.mem_map.2 ⟨d, List.mem_filter.2 ⟨hd, hs⟩, rfl⟩
    simp [this, hs]
  · have : d.name ∉ (m.filter (stale db)).map (fun d => d.name) := by
      intro hmem
      obtain ⟨d2, hd2, he⟩ := List.mem_map.1 hmem
      have := name_injOn m hn d2 d (List.mem_filter.1 hd2).1 hd he
      subst this
      exact hs (List.mem_filter.1 hd2).2
    simp [this, hs]

theorem merged_object_stale (srv : Server) (db : Store) (m : List ResourceDescriptor)
    (hn : (m.map (fun d => d.name)).Nodup) (d : ResourceDescriptor) (hd : d ∈ m)
    (hs : stale db d = true) (c : Bytes) (hc : srv.get d.name = some c) :
    merged_object (fetched_contents srv m db) db d
      = some { id := d.name, name := d.name, hash := d.hash, size := d.size,
               content := .stored (.bytes c) } := by
  have hown := fetched_contents_own srv db m hn d hd
  rw [if_pos hs, hc] at hown
  simp [merged_object, NewContents.get, hown, JSValue.truthy]

theorem merged_object_fresh (srv : Server) (db : Store) (m : List ResourceDescriptor)
    (hn : (m.map (fun d => d.name)).Nodup) (d : ResourceDescriptor) (hd : d ∈ m)
    (hs : stale db d = false) (hp : d.name ≠ "__proto__") (r : CacheRecord)
    (hr : db.find? (fun x => x.name == d.name) = some r) :
    merged_object (fetched_contents srv m db) db d
        = some { id := d.name, name := d.name, hash := d.hash, size := d.size,
                 content := .function } ∨
    merged_object (fetched_contents srv m db) db d
        = some { id := d.name, name := d.name, hash := d.hash, size := d.size,
                 content := .stored r.content } := by
  have hown := fetched_contents_own srv db m hn d hd
  rw [hs] at hown
  simp only [Bool.false_eq_true, if_false] at hown
  have hproto : (fetched_contents srv m db).proto = none := rfl
  by_cases hf : d.name ∈ objectPrototypeFunctions
  · left
    simp [merged_object, NewContents.get, hown, hproto, hp, hf, JSValue.truthy]
  · right
    simp [merged_object, NewContents.get, hown, hproto, hp, hf, hr]

/-- Without the name `__proto__` in the manifest: from a store keyed by name and a manifest
with pairwise distinct names, when every content fetch of a stale descriptor succeeds,
the pass does not raise, every stale descriptor ends with its remote hash and size and
the downloaded bytes, and every fresh descriptor keeps its record. -/
theorem records_after_pass_without_proto (srv : Server) (db : Store)
    (m : List ResourceDescriptor)
    (hk : KeyedByName db) (hn : (m.map (fun d => d.name)).Nodup)
    (hm : srv.enumerate = some m)
    (hno : ∀ d ∈ m, d.name ≠ "__proto__")
    (hf : ∀ d ∈ m, stale db d = true → fetch_ok srv d = true) :
    (update_resources_cache srv db).raised = false ∧
    ∀ d ∈ m,
      (stale db d = true → ∀ c, srv.get d.name = some c →
        (update_resources_cache srv db).store.get? d.name
          = some { id := d.name, name := d.name, hash := d.hash, size := d.size,
                   content := .bytes c }) ∧
      (stale db d = false →
        (update_resources_cache srv db).store.get? d.name = db.get? d.name) := by
  have hnp : NoStaleProto db m := fun d hd _ => hno d hd
  by_cases hs : ∃ d ∈ m, stale db d = true
  · refine ⟨(update_fetch_ok srv db m hm hnp hs hf).1, ?_⟩
    intro d hd
    rw [update_fetch_ok_store srv db m hm hnp hs hf]
    constructor
    · intro hsd c hc
      have ho := merged_object_stale srv db m hn d hd hsd c hc
      rw [put_loop_get (fetched_contents srv m db) db m db rfl hk hn d hd _ ho]
      rfl
    · intro hsd
      obtain ⟨r, hr, hh, hsz, _⟩ := (stale_eq_false_iff db d).1 hsd
      have hget : db.get? d.name = some r := by rw [← find_name_eq_get db hk]; exact hr
      have hname : r.name = d.name := by simpa using List.find?_some hr
      have hid : r.id = d.name := by rw [hk r (List.mem_of_find?_eq_some hr)]; exact hname
      rcases merged_object_fresh srv db m hn d hd hsd (hno d hd) r hr with ho | ho
      · rw [put_loop_get (fetched_contents srv m db) db m db rfl hk hn d hd _ ho]
        rfl
      · rw [put_loop_get (fetched_contents srv m db) db m db rfl hk hn d hd _ ho, hget]
        simp only [structuredClone]
        cases r
        simp_all
  · have hfresh := not_stale_of_not_exists db m hs
    rw [update_all_fresh srv db m hm hfresh]
    refine ⟨rfl, fun d hd => ⟨fun hsd => ?_, fun _ => rfl⟩⟩
    rw [hfresh d hd] at hsd
    cases hsd

/-- Without the name `__proto__` in the manifest a second pass against the same manifest
finds nothing stale. -/
theorem second_pass_without_proto (srv : Server) (db : Store) (m : List ResourceDescriptor)
    (hk : KeyedByName db) (hn : (m.map (fun d => d.name)).Nodup)
    (hm : srv.enumerate = some m)
    (hno : ∀ d ∈ m, d.name ≠ "__proto__")
    (hf : ∀ d ∈ m, stale db d = true → fetch_ok srv d = true) :
    ∀ d ∈ m, stale (update_resources_cache srv db).store d = false := by
  intro d hd
  have hk2 := (keyedByName_invariant srv db hk).2
  have h := (records_after_pass_without_proto srv db m hk hn hm hno hf).2 d hd
  rw [stale_eq_false_iff, find_name_eq_get _ hk2]
  by_cases hsd : stale db d = true
  · have hok := hf d hd hsd
    simp only [fetch_ok, download_resource, Option.isSome_iff_exists] at hok
    obtain ⟨c, hc⟩ := hok
    exact ⟨_, h.1 hsd c hc, rfl, rfl, by simp⟩
  · have hsd2 : stale db d = false := by simpa using hsd
    obtain ⟨r, hr, hh, hsz, hc⟩ := (stale_eq_false_iff db d).1 hsd2
    refine ⟨r, ?_, hh, hsz, hc⟩
    rw [h.2 hsd2, ← find_name_eq_get db hk]
    exact hr

/-! ## Claims -/

/-- C1, as stated, fails: on the manifest `[a, b]` with an empty store both descriptors
are stale, the content fetch of `a` fails, and the only call of `download_resource` is
the one for `a`; the stale descriptor `b` is never fetched. -/
theorem C1_fetch_stops_at_first_failure :
    srvFailA.enumerate = some [descA, descB] ∧
    stale [] descA = true ∧ stale [] descB = true ∧
    (update_resources_cache srvFailA []).fetched = [descA] ∧
    (update_resources_cache srvFailA []).fetched ≠ [descA, descB].filter (stale []) := by
  decide

/-- C1 (amended): a descriptor is pushed to `to_download` exactly when it is stale in the
sense of the specification.  When no stale descriptor is named `__proto__`,
`download_resource` is called on the stale descriptors in manifest order, up to and
including the first one whose fetch fails, and on no other descriptor; when moreover
no fetch of a stale descriptor fails, the calls are exactly the stale descriptors of the
manifest, each once, in manifest order. -/
theorem C1_fetch_calls (srv : Server) (db : Store) (m : List ResourceDescriptor)
    (hm : srv.enumerate = some m) (hnp : NoStaleProto db m) :
    (∀ d, stale db d = true ↔ Stale db d) ∧
    (update_resources_cache srv db).fetched
      = (m.filter (stale db)).takeWhile (fetch_ok srv)
          ++ ((m.filter (stale db)).dropWhile (fetch_ok srv)).take 1 ∧
    ((∀ d ∈ m, stale db d = true → fetch_ok srv d = true) →
      (update_resources_cache srv db).fetched = m.filter (stale db)) := by
  refine ⟨stale_iff db, update_fetched srv db m hm hnp, ?_⟩
  intro hall
  rw [update_fetched srv db m hm hnp]
  have htw : (m.filter (stale db)).takeWhile (fetch_ok srv) = m.filter (stale db) := by
    rw [List.takeWhile_eq_self_iff]
    intro x hx
    exact hall x (List.mem_filter.1 hx).1 (List.mem_filter.1 hx).2
  have hdw : (m.filter (stale db)).dropWhile (fetch_ok srv) = [] := by
    rw [List.dropWhile_eq_nil_iff]
    intro x hx
    exact hall x (List.mem_filter.1 hx).1 (List.mem_filter.1 hx).2
  rw [htw, hdw]
  simp

/-- C1, the example P3: five descriptors, three of them matched locally on hash, size and
present content, give exactly the two fetch calls for the two that differ. -/
theorem C1_fetch_calls_witness :
    srv5.enumerate = some manifest5 ∧ NoStaleProto store5 manifest5 ∧
    (update_resources_cache srv5 store5).fetched
      = [{ name := "r2", hash := "x2", size := 2 }, { name := "r5", hash := "x5", size := 5 }] ∧
    (update_resources_cache srv5 store5).fetched.length = 2 :=
  have h := (C1_fetch_calls srv5 store5 manifest5 rfl (by decide)).2.2 (by decide)
  ⟨rfl, by decide, h.trans (by decide), by rw [h]; decide⟩

/-- C2: when the content fetch for the name of a local record fails, and the manifest
lists that name with a different hash or size, the pass leaves the whole store as it
was; in particular the record found under that name is the old one, content
included. -/
theorem C2_failed_download_keeps_record (srv : Server) (db : Store)
    (m : List ResourceDescriptor) (r : CacheRecord) (d : ResourceDescriptor) (X : Bytes)
    (hm : srv.enumerate = some m)
    (hr : db.find? (fun x => x.name == d.name) = some r)
    (hX : r.content = Content.bytes X)
    (hd : d ∈ m)
    (hdiff : r.hash ≠ d.hash ∨ r.size ≠ d.size)
    (hfail : download_resource srv d = none) :
    (update_resources_cache srv db).store = db ∧
    (update_resources_cache srv db).store.find? (fun x => x.name == d.name) = some r ∧
    r.content = Content.bytes X ∧
    (update_resources_cache srv db).puts = [] := by
  have hs : stale db d = true := by
    rw [stale_iff]
    right
    exact ⟨r, hr, by tauto⟩
  have h := update_fetch_fail srv db m hm ⟨d, hd, hs, hfail⟩
  rw [h.2.2]
  exact ⟨rfl, hr, hX, h.2.1⟩

/-- C2, the example P6: local `{b, old, 1, [9]}`, remote `{b, new, 2}`, failing fetch. -/
theorem C2_failed_download_keeps_record_witness :
    srvFailB.enumerate = some [descB] ∧
    List.find? (fun x => x.name == descB.name) [recB] = some recB ∧
    (recB.hash ≠ descB.hash ∨ recB.size ≠ descB.size) ∧
    download_resource srvFailB descB = none ∧
    (update_resources_cache srvFailB [recB]).store = [recB] ∧
    (update_resources_cache srvFailB [recB]).store.find? (fun x => x.name == descB.name)
      = some recB ∧
    recB.content = Content.bytes [9] ∧
    (update_resources_cache srvFailB [recB]).puts = [] :=
  ⟨rfl, rfl, by decide, rfl,
    C2_failed_download_keeps_record srvFailB [recB] [descB] recB descB [9] rfl rfl rfl
      (by decide) (by decide) rfl⟩

/-- C7: when the manifest fetch fails, the pass fails, calls `download_resource` never,
issues no put, and leaves the store as it was. -/
theorem C7_manifest_failure_aborts (srv : Server) (db : Store)
    (h : fetch_resources_from_server srv = none) :
    (update_resources_cache srv db).raised = true ∧
    (update_resources_cache srv db).fetched = [] ∧
    (update_resources_cache srv db).puts = [] ∧
    (update_resources_cache srv db).store = db := by
  rw [update_manifest_fail srv db h]
  exact ⟨rfl, rfl, rfl, rfl⟩

/-- C7 on a server that is down and a store holding one record. -/
theorem C7_manifest_failure_aborts_witness :
    fetch_resources_from_server srvDown = none ∧
    (update_resources_cache srvDown [recB]).raised = true ∧
    (update_resources_cache srvDown [recB]).fetched = [] ∧
    (update_resources_cache srvDown [recB]).puts = [] ∧
    (update_resources_cache srvDown [recB]).store = [recB] :=
  ⟨rfl, C7_manifest_failure_aborts srvDown [recB] rfl⟩

/-- C10 (no removal of orphans): in a store keyed by name, a local record whose name does
not occur in the manifest is still in the store after the pass and is still the record
found under its key; every put of the pass is under the name of a manifest descriptor. -/
theorem C10_orphans_kept (srv : Server) (db : Store) (m : List ResourceDescriptor)
    (x : CacheRecord)
    (hk : KeyedByName db) (hm : srv.enumerate = some m)
    (hx : x ∈ db) (hnot : x.name ∉ m.map (fun d => d.name)) :
    x ∈ (update_resources_cache srv db).store ∧
    (update_resources_cache srv db).store.get? x.id = db.get? x.id ∧
    ∀ o ∈ (update_resources_cache srv db).puts, o.id ∈ m.map (fun d => d.name) := by
  rcases pass_puts_cases srv db m hm with ⟨hp, hst⟩ | ⟨nc, hp, hst⟩
  · rw [hp, hst]
    exact ⟨hx, rfl, by simp⟩
  · have hne : x.id ∉ m.map (fun d => d.name) := by rw [hk x hx]; exact hnot
    have hf := put_loop_frame nc db m db x hx hne
    rw [hp, hst]
    exact ⟨hf.1, hf.2, fun o ho => (put_loop_ids nc db m db o ho).1⟩

/-- C10 on the store `[b]` and the manifest `[a]`: `b` survives the pass that adds `a`. -/
theorem C10_orphans_kept_witness :
    KeyedByName [recB] ∧ recB.name ∉ [descA].map (fun d => d.name) ∧
    (recB ∈ (update_resources_cache srvA [recB]).store ∧
    (update_resources_cache srvA [recB]).store.get? recB.id = Store.get? [recB] recB.id ∧
    ∀ o ∈ (update_resources_cache srvA [recB]).puts, o.id ∈ [descA].map (fun d => d.name)) :=
  ⟨by decide, by decide,
    C10_orphans_kept srvA [recB] [descA] recB (by decide) rfl (by decide) (by decide)⟩

/-- C4, as stated, fails: with an empty store and the manifest `[a, b]`, both stale, the
fetch of `a` failing and the fetch of `b` succeeding, the pass raises, issues no put,
and `b` is not persisted. -/
theorem C4_failed_fetch_propagates :
    srvFailA.enumerate = some [descA, descB] ∧ descA.name ≠ descB.name ∧
    stale [] descA = true ∧ stale [] descB = true ∧
    download_resource srvFailA descA = none ∧
    download_resource srvFailA descB = some [7, 7] ∧
    (update_resources_cache srvFailA []).raised = true ∧
    (update_resources_cache srvFailA []).puts = [] ∧
    (update_resources_cache srvFailA []).store.get? "b" = none := by
  decide

/-- C4 (amended): a failed content fetch is not isolated.  Whenever the content fetch of
some stale descriptor fails, the pass raises, issues no put and leaves the store as it
was, so no other stale descriptor is persisted, whether or not its own fetch would
succeed.  When no stale descriptor is named `__proto__`, this is, once the manifest is
fetched, the only way the pass raises. -/
theorem C4_failed_fetch_aborts (srv : Server) (db : Store) (m : List ResourceDescriptor)
    (hm : srv.enumerate = some m) :
    ((∃ d ∈ m, stale db d = true ∧ download_resource srv d = none) →
      (update_resources_cache srv db).raised = true ∧
      (update_resources_cache srv db).puts = [] ∧
      (update_resources_cache srv db).store = db) ∧
    (NoStaleProto db m →
      ((update_resources_cache srv db).raised = true ↔
        ∃ d ∈ m, stale db d = true ∧ download_resource srv d = none)) := by
  refine ⟨update_fetch_fail srv db m hm, ?_⟩
  intro hnp
  constructor
  · intro hr
    by_contra hfail
    have hall := all_ok_of_not_fail srv db m hfail
    by_cases hs : ∃ x ∈ m, stale db x = true
    · rw [(update_fetch_ok srv db m hm hnp hs hall).1] at hr
      cases hr
    · rw [update_all_fresh srv db m hm (not_stale_of_not_exists db m hs)] at hr
      cases hr
  · intro hfail
    exact (update_fetch_fail srv db m hm hfail).1

/-- C4 (amended) on the manifest `[a, b]` where the fetch of `a` fails: the pass raises and
the store stays empty. -/
theorem C4_failed_fetch_aborts_witness :
    srvFailA.enumerate = some [descA, descB] ∧
    (update_resources_cache srvFailA []).raised = true ∧
    (update_resources_cache srvFailA []).puts = [] ∧
    (update_resources_cache srvFailA []).store = [] :=
  ⟨rfl, (C4_failed_fetch_aborts srvFailA [] [descA, descB] rfl).1
    ⟨descA, by decide, by decide, rfl⟩⟩

/-- C5, as stated, fails: a manifest that names `a` twice is accepted; from an empty store
the pass does not raise, fetches `a` twice, issues two puts, and the store ends up
holding the record built for the second descriptor. -/
theorem C5_duplicate_names_accepted :
    srvDup.enumerate = some [descA, { name := "a", hash := "h2", size := 4 }] ∧
    (update_resources_cache srvDup []).raised = false ∧
    (update_resources_cache srvDup []).fetched.length = 2 ∧
    (update_resources_cache srvDup []).puts.length = 2 ∧
    (update_resources_cache srvDup []).store
      = [{ id := "a", name := "a", hash := "h2", size := 4, content := .bytes [1, 2, 3] }] := by
  decide

/-- C5 (amended): there is no unique-name check.  For a manifest in which two descriptors
share a name and no stale descriptor is named `__proto__`, when the manifest fetch and
the content fetch of every stale descriptor succeed, the pass does not fail; if some
descriptor is stale it fetches every stale descriptor and issues one put per
descriptor, duplicates included, in manifest order; if none is stale it issues no put
and leaves the store as it was. -/
theorem C5_no_unique_name_check (srv : Server) (db : Store) (m : List ResourceDescriptor)
    (hm : srv.enumerate = some m)
    (_hdup : ¬ (m.map (fun d => d.name)).Nodup)
    (hnp : NoStaleProto db m)
    (hf : ∀ d ∈ m, stale db d = true → fetch_ok srv d = true) :
    (update_resources_cache srv db).raised = false ∧
    ((∃ d ∈ m, stale db d = true) →
      (update_resources_cache srv db).fetched = m.filter (stale db) ∧
      (update_resources_cache srv db).puts.map (fun o => o.id) = m.map (fun d => d.name)) ∧
    ((∀ d ∈ m, stale db d = false) →
      (update_resources_cache srv db).puts = [] ∧ (update_resources_cache srv db).store = db) := by
  by_cases hs : ∃ x ∈ m, stale db x = true
  · have h := update_fetch_ok srv db m hm hnp hs hf
    refine ⟨h.1, fun _ => h.2, ?_⟩
    intro hfresh
    obtain ⟨x, hx, hsx⟩ := hs
    rw [hfresh x hx] at hsx
    cases hsx
  · rw [update_all_fresh srv db m hm (not_stale_of_not_exists db m hs)]
    exact ⟨rfl, fun h => absurd h hs, fun _ => ⟨rfl, rfl⟩⟩

/-- C5 (amended) on the manifest that names `a` twice, from an empty store. -/
theorem C5_no_unique_name_check_witness :
    ¬ ([descA, { name := "a", hash := "h2", size := 4 }].map (fun d => d.name)).Nodup ∧
    NoStaleProto [] [descA, { name := "a", hash := "h2", size := 4 }] ∧
    (update_resources_cache srvDup []).raised = false ∧
    (update_resources_cache srvDup []).puts.map (fun o => o.id) = ["a", "a"] :=
  have h := C5_no_unique_name_check srvDup [] [descA, { name := "a", hash := "h2", size := 4 }]
    rfl (by decide) (by decide) (by decide)
  ⟨by decide, by decide, h.1, (h.2.1 ⟨descA, by decide, by decide⟩).2⟩

/-- C3 fails on the code.  From the empty store, with the manifest `[__proto__, 7]` and
every fetch returning three bytes, the pass does not raise and issues both puts, but
the assignment of line 78 under the name `7` is dropped by the `Uint8Array` that the
assignment under `__proto__` made the prototype of `new_contents`: the record stored
for `7` has content `null`.  With the manifest `[__proto__, length]` the assignment
under `length` throws and no record is stored at all. -/
theorem C3_invariant_broken_after_proto :
    KeyedByName [] ∧ ([descProto, desc7].map (fun d => d.name)).Nodup ∧
    srvProto7.enumerate = some [descProto, desc7] ∧
    (∀ d ∈ [descProto, desc7], fetch_ok srvProto7 d = true) ∧
    (update_resources_cache srvProto7 []).raised = false ∧
    (update_resources_cache srvProto7 []).fetched = [descProto, desc7] ∧
    (update_resources_cache srvProto7 []).store.get? "7"
      = some { id := "7", name := "7", hash := "h7", size := 3, content := .null } ∧
    ([descProto, descLength].map (fun d => d.name)).Nodup ∧
    srvProtoLength.enumerate = some [descProto, descLength] ∧
    (∀ d ∈ [descProto, descLength], fetch_ok srvProtoLength d = true) ∧
    (update_resources_cache srvProtoLength []).raised = true ∧
    (update_resources_cache srvProtoLength []).store = [] := by
  decide

/-- C6 fails on the code.  The first pass from the empty store against `[__proto__, 7]`
does not raise, yet leaves `7` with content `null`; a second pass against the same
manifest finds `7` stale and fetches it, and raises when that fetch fails. -/
theorem C6_second_pass_fetches_after_proto :
    KeyedByName [] ∧ ([descProto, desc7].map (fun d => d.name)).Nodup ∧
    srvProto7.enumerate = some [descProto, desc7] ∧
    (∀ d ∈ [descProto, desc7], fetch_ok srvProto7 d = true) ∧
    srvProto7Unreachable.enumerate = some [descProto, desc7] ∧
    (update_resources_cache srvProto7 []).raised = false ∧
    stale (update_resources_cache srvProto7 []).store desc7 = true ∧
    (update_resources_cache srvProto7Unreachable
      (update_resources_cache srvProto7 []).store).fetched = [desc7] ∧
    (update_resources_cache srvProto7Unreachable
      (update_resources_cache srvProto7 []).store).raised = true ∧
    (update_resources_cache srvProto7
      (update_resources_cache srvProto7 []).store).fetched = [desc7] := by
  decide

/-- C8 fails on the code.  The store, left by a first pass against the manifest
`[__proto__]`, holds for `__proto__` a record that matches the manifest in hash and size
and has content `[5, 5, 5]`, so the descriptor is fresh; the manifest now also lists
the stale `a`.  The read of line 91 under the name `__proto__` finds the inherited
accessor and yields `%Object.prototype%`, which is truthy: the record is put with that
content and stored with content `{}`.  The bytes are lost. -/
theorem C8_fresh_proto_record_overwritten :
    (update_resources_cache srvProtoOnly []).store = [recProto] ∧
    KeyedByName [recProto] ∧ ([descProto, descA].map (fun d => d.name)).Nodup ∧
    srvProtoA.enumerate = some [descProto, descA] ∧
    Store.get? [recProto] descProto.name = some recProto ∧
    recProto.hash = descProto.hash ∧ recProto.size = descProto.size ∧
    recProto.content = Content.bytes [5, 5, 5] ∧
    stale [recProto] descProto = false ∧
    (update_resources_cache srvProtoA [recProto]).raised = false ∧
    (update_resources_cache srvProtoA [recProto]).store.get? descProto.name
      = some { id := "__proto__", name := "__proto__", hash := "hp", size := 3,
               content := .object } ∧
    (update_resources_cache srvProtoA [recProto]).store.get? descProto.name
      ≠ some recProto := by
  decide

/-- C9 fails on the code.  From the empty store, with every fetch returning `[1, 2, 3]`:
against `[__proto__, length]` the stale `length` is fetched, but its assignment at line
78 throws and nothing is stored under `length`; against `[__proto__, 7]` the stale `7`
is fetched, its assignment is dropped, and the record stored under `7` has content
`null` instead of the fetched bytes. -/
theorem C9_download_lost_after_proto :
    KeyedByName [] ∧
    ([descProto, descLength].map (fun d => d.name)).Nodup ∧
    srvProtoLength.enumerate = some [descProto, descLength] ∧
    (∀ d ∈ [descProto, descLength], fetch_ok srvProtoLength d = true) ∧
    stale [] descLength = true ∧ download_resource srvProtoLength descLength = some [1, 2, 3] ∧
    (update_resources_cache srvProtoLength []).store.get? descLength.name = none ∧
    ([descProto, desc7].map (fun d => d.name)).Nodup ∧
    srvProto7.enumerate = some [descProto, desc7] ∧
    (∀ d ∈ [descProto, desc7], fetch_ok srvProto7 d = true) ∧
    stale [] desc7 = true ∧ download_resource srvProto7 desc7 = some [1, 2, 3] ∧
    (update_resources_cache srvProto7 []).store.get? desc7.name
      = some { id := "7", name := "7", hash := "h7", size := 3, content := .null } := by
  decide

end Dawn
